import Mathlib

/-!
Verification of the `reels` playback engine (Go sources under `player/`).

Shallow embedding: each Go function relevant to the checked claims is
translated into an executable Lean definition; machine floats that only
feed threshold comparisons and linear arithmetic are modelled as `ℚ`,
byte buffers as `List Nat` with an explicit `< 256` well-formedness
hypothesis where it matters.
-/

namespace Reels

/-- Constant from `player/types.go`: max drift (seconds) before the render
loop skips or delays frames (`SyncThreshold = 0.1`). -/
def SyncThreshold : ℚ := 1/10

/-- Constant from `player/types.go`: `TargetFPS = 30`. -/
def TargetFPS : Nat := 30

/-- Constant from `player/types.go`: `AudioSampleRate = 44100`. -/
def AudioSampleRate : Nat := 44100

/-- Constant from `player/types.go`: `AudioChannels = 2`. -/
def AudioChannels : Nat := 2

/-! ## Video render loop (`player/session.go`, `videoRenderLoop`) -/

/-- A decoded video frame; only the presentation timestamp matters for the
sync decision (`Frame.PTS` in `player/video.go`). -/
structure VFrame where
  pts : ℚ
  deriving Repr, DecidableEq

/-- Observable state of the audio player as read by the render loop:
`s.audio != nil` (`present`) and `s.audio.IsPlaying()` / `s.audio.Time()`. -/
structure AudioView where
  present : Bool
  isPlaying : Bool
  time : ℚ
  deriving Repr, DecidableEq

/-- Outcome of the A/V sync comparison in `videoRenderLoop`
(session.go lines 217-224). -/
inductive SyncDecision
  | sleepRender (d : ℚ)
  | drop
  | renderNow
  deriving Repr, DecidableEq

/-- Embedding of session.go lines 219-224: `diff := frame.PTS - audioTime`;
`diff > SyncThreshold` sleeps `diff * 0.2` seconds then renders,
`diff < -SyncThreshold` drops the frame (`continue`), otherwise the frame
is rendered immediately. -/
def syncDecide (pts audioTime : ℚ) : SyncDecision :=
  let diff := pts - audioTime
  if diff > SyncThreshold then .sleepRender (diff * (1/5))
  else if diff < -SyncThreshold then .drop
  else .renderNow

/-- Per-packet context observed by one iteration of `videoRenderLoop`:
the `p.playing` flag when the packet is received, the `p.paused` flag,
whether `p.playing` flips to false while the pause poll loop is sleeping,
and the decoder result for this packet (`none` = decoder needs more input). -/
structure VPacketCtx where
  playing : Bool
  paused : Bool
  stopDuringPause : Bool
  decodeErr : Bool
  decoded : Option VFrame
  deriving Repr, DecidableEq

/-- Observable event produced by one iteration of `videoRenderLoop`. -/
inductive PacketEvent
  | freedNotDecoded
  | freedStopDuringPause
  | decodeError
  | decodedNoFrame
  | sleptAndRendered (d : ℚ)
  | dropped
  | rendered
  deriving Repr, DecidableEq

/-- Embedding of one iteration of `videoRenderLoop` (session.go 193-238):
a packet received while `!p.playing.Load()` is freed and skipped
(`continue`); the pause poll loop frees the packet and returns if
`p.playing` clears; otherwise the packet is fed to
`s.video.DecodePacket`, and a produced frame goes through the sync
decision when audio is present and playing, else through the
frame-paced fallback (whose sleep only affects timing, so the fallback
renders). -/
def processVideoPacket (audio : AudioView) (c : VPacketCtx) : PacketEvent :=
  if !c.playing then .freedNotDecoded
  else if c.paused && c.stopDuringPause then .freedStopDuringPause
  else if c.decodeErr then .decodeError
  else
    match c.decoded with
    | none => .decodedNoFrame
    | some f =>
      if audio.present && audio.isPlaying then
        match syncDecide f.pts audio.time with
        | .sleepRender d => .sleptAndRendered d
        | .drop => .dropped
        | .renderNow => .rendered
      else .rendered

/-- Whether an iteration's event terminates the `for pkt := range` loop
(decode errors return an error; a stop observed during pause returns nil). -/
def stopsLoop : PacketEvent → Bool
  | .freedStopDuringPause => true
  | .decodeError => true
  | _ => false

/-- Embedding of the whole `videoRenderLoop` over the queued packet
sequence, recording one event per processed packet (the loop body either
continues to the next packet or returns). -/
def videoRenderLoop (audio : AudioView) : List VPacketCtx → List PacketEvent
  | [] => []
  | c :: rest =>
    let e := processVideoPacket audio c
    if stopsLoop e then [e] else e :: videoRenderLoop audio rest

/-- Whether the event's iteration invoked `s.video.DecodePacket` on the
packet. -/
def fedToDecoder : PacketEvent → Bool
  | .freedNotDecoded => false
  | .freedStopDuringPause => false
  | _ => true

/-- Whether the event's iteration invoked `s.renderer.RenderFrame`. -/
def rendererInvoked : PacketEvent → Bool
  | .sleptAndRendered _ => true
  | .rendered => true
  | _ => false

/-! ## Audio pull callback (`audioStreamer.Stream`, part_012 lines 63-106) -/

/-- Go `b0 | int16(b1)<<8` on two little-endian bytes, as a signed 16-bit
value (two's complement wraparound of the shifted high byte). -/
def int16OfBytes (lo hi : Nat) : Int :=
  let v := (lo + 256 * hi) % 65536
  if v < 32768 then (v : Int) else (v : Int) - 65536

/-- One PCM channel sample as the callback hands it to the audio device:
`float64(v) / 32768.0`. -/
def toSample (lo hi : Nat) : ℚ := (int16OfBytes lo hi : ℚ) / 32768

/-- State shared between the audio decoder and the pull callback:
paused flag, the byte sample buffer `sampleBuf`, and the master clock in
seconds (`AudioPlayer.clock`). -/
structure StreamerState where
  paused : Bool
  sampleBuf : List Nat
  clock : ℚ
  deriving Repr, DecidableEq

/-- Core loop of `audioStreamer.Stream` (part_012 lines 79-98): for each
requested output slot, if fewer than `bytesPerSample = 4` buffer bytes
remain, fill the rest of the output with silence and stop consuming;
otherwise consume 4 bytes as one stereo sample. Returns (output samples,
`samplesPlayed`, remaining buffer). -/
def streamCore (n : Nat) (buf : List Nat) : List (ℚ × ℚ) × Nat × List Nat :=
  match n, buf with
  | 0, buf => ([], 0, buf)
  | Nat.succ k, b0 :: b1 :: b2 :: b3 :: rest =>
    let r := streamCore k rest
    ((toSample b0 b1, toSample b2 b3) :: r.1, r.2.1 + 1, r.2.2)
  | Nat.succ k, buf => (List.replicate (Nat.succ k) ((0 : ℚ), (0 : ℚ)), 0, buf)

/-- Result of one `Stream` call: the filled sample slice, the returned
`(n, ok)` pair, and the updated shared state. -/
structure StreamResult where
  out : List (ℚ × ℚ)
  n : Nat
  ok : Bool
  state : StreamerState
  deriving Repr, DecidableEq

/-- Embedding of `audioStreamer.Stream` (part_012 lines 63-106): while
paused the whole slice is zeroed, the state is untouched and
`(len(samples), true)` is returned; otherwise samples are pulled from
`sampleBuf` via `streamCore` and the clock is advanced by
`samplesPlayed / AudioSampleRate` only when `samplesPlayed > 0`. -/
def audioStreamer.Stream (s : StreamerState) (numSamples : Nat) : StreamResult :=
  if s.paused then
    ⟨List.replicate numSamples ((0 : ℚ), (0 : ℚ)), numSamples, true, s⟩
  else
    let r := streamCore numSamples s.sampleBuf
    let played := r.2.1
    let newClock :=
      if played > 0 then s.clock + (played : ℚ) / (AudioSampleRate : ℚ) else s.clock
    ⟨r.1, numSamples, true, ⟨s.paused, r.2.2, newClock⟩⟩

/-! ## Direct inline transmission (`player/render.go`, `writeImageDirect`)

Go's `base64.StdEncoding.EncodeToString` is embedded as `b64Encode`
below (standard alphabet, `=` padding); bytes are `Nat` values with a
`< 256` well-formedness hypothesis in the theorems. -/

/-- The standard base64 alphabet. -/
def b64Alphabet : List Char :=
  ['A','B','C','D','E','F','G','H','I','J','K','L','M','N','O','P',
   'Q','R','S','T','U','V','W','X','Y','Z',
   'a','b','c','d','e','f','g','h','i','j','k','l','m','n','o','p',
   'q','r','s','t','u','v','w','x','y','z',
   '0','1','2','3','4','5','6','7','8','9','+','/']

/-- Alphabet character for a sextet value. -/
def b64Char (i : Nat) : Char := b64Alphabet.getD i '?'

/-- Index of a character in the base64 alphabet (64 when absent). -/
def b64Index (c : Char) : Nat := b64Alphabet.findIdx (fun x => x == c)

/-- Standard base64 encoding of a byte list, three bytes per four output
characters with `=` padding, as Go's `base64.StdEncoding` produces. -/
def b64Encode : List Nat → List Char
  | [] => []
  | [b0] => [b64Char (b0 / 4), b64Char (b0 % 4 * 16), '=', '=']
  | [b0, b1] => [b64Char (b0 / 4), b64Char (b0 % 4 * 16 + b1 / 16),
                 b64Char (b1 % 16 * 4), '=']
  | b0 :: b1 :: b2 :: rest =>
    b64Char (b0 / 4) :: b64Char (b0 % 4 * 16 + b1 / 16) ::
    b64Char (b1 % 16 * 4 + b2 / 64) :: b64Char (b2 % 64) ::
    b64Encode rest

/-- Reassemble bytes from a padding-stripped list of sextet values. -/
def b64DecodeSextets : List Nat → List Nat
  | s0 :: s1 :: s2 :: s3 :: rest =>
    (s0 * 4 + s1 / 16) :: (s1 % 16 * 16 + s2 / 4) :: (s2 % 4 * 64 + s3) ::
    b64DecodeSextets rest
  | [s0, s1] => [s0 * 4 + s1 / 16]
  | [s0, s1, s2] => [s0 * 4 + s1 / 16, s1 % 16 * 16 + s2 / 4]
  | _ => []

/-- Standard base64 decoding: drop padding, map characters to sextets,
reassemble bytes. -/
def b64Decode (cs : List Char) : List Nat :=
  b64DecodeSextets ((cs.filter (fun c => c ≠ '=')).map b64Index)

/-- Header keys carried by the first chunk of a direct transmission
(render.go line 227): `a=T,f=<format>,s=<width>,v=<height>,i=<id>,q=2`. -/
structure ChunkHeader where
  a : Char
  f : Nat
  s : Nat
  v : Nat
  i : Nat
  q : Nat
  deriving Repr, DecidableEq

/-- One emitted escape sequence of the chunked transfer: the optional
first-chunk header, the `m=` flag, and the base64 payload between `;`
and `ESC \`. -/
structure KittyChunk where
  header : Option ChunkHeader
  m : Nat
  payload : List Char
  deriving Repr, DecidableEq

/-- Splitting loop of `writeImageDirect` (render.go lines 214-233): while
text remains, take at most `chunkSize = 4096` characters; `m=1` exactly
when the text was longer than the boundary. Returns `(m, payload)`
pairs in emission order. -/
def chunkPayloads (enc : List Char) : List (Nat × List Char) :=
  if enc = [] then []
  else if 4096 < enc.length then
    (1, enc.take 4096) :: chunkPayloads (enc.drop 4096)
  else [(0, enc)]
  termination_by enc.length
  decreasing_by
    simp only [List.length_drop]
    omega

/-- Embedding of `writeImageDirect` (render.go lines 208-234): base64
encode the pixel data, chunk the text at the 4096 boundary, attach the
full `a=T` header to the first chunk and only the `m=` flag to the
rest. -/
def writeImageDirect (data : List Nat) (format width height id : Nat) :
    List KittyChunk :=
  match chunkPayloads (b64Encode data) with
  | [] => []
  | (m0, p0) :: rest =>
    ⟨some ⟨'T', format, width, height, id, 2⟩, m0, p0⟩ ::
    rest.map (fun mp => ⟨none, mp.1, mp.2⟩)

/-! ## Session startup (`player/session.go`, `run`) -/

/-- The distinguishable steps a `playSession.run` body can perform, in
their program order; `prebufferAudio` names the 200ms audio-accumulation
gate the repository documentation describes (a loop on
`s.audio.BufferSize() < targetBytes` before playback timing unblocks). -/
inductive RunStep
  | startAudioDecodeGoroutine
  | audioStart
  | startDemuxGoroutine
  | videoRenderLoopStep
  | waitDemux
  | closeAudioCh
  | waitAudio
  | prebufferAudio
  deriving Repr, DecidableEq

/-- Embedding of `run` (session.go lines 79-108), in source order: spawn
the audio decode goroutine, call `s.audio.Start()`, spawn the demux
goroutine, run the video render loop on the caller thread, wait for
demux, close the audio channel, wait for audio decode. -/
def runSteps : List RunStep :=
  [.startAudioDecodeGoroutine, .audioStart, .startDemuxGoroutine,
   .videoRenderLoopStep, .waitDemux, .closeAudioCh, .waitAudio]

/-! ## Idempotent stop (`player/session.go`, `stop`) -/

/-- State touched by `playSession.stop`: whether the `sync.Once` already
ran, whether `stopCh` is nil, and whether `stopCh` has been closed. -/
structure StopState where
  onceDone : Bool
  chNil : Bool
  chClosed : Bool
  deriving Repr, DecidableEq

/-- The `stopCh` state as `newPlaySession` leaves it: a fresh, open,
non-nil channel and an unused `sync.Once`. -/
def freshStopState : StopState := ⟨false, false, false⟩

/-- Embedding of `stop` (session.go lines 110-116): `sync.Once.Do` runs
the body only on the first call; the body closes `stopCh` when non-nil,
and closing an already-closed Go channel panics (modelled as `.error`). -/
def sessionStop (s : StopState) : Except String StopState :=
  if s.onceDone then .ok s
  else if s.chNil then .ok { s with onceDone := true }
  else if s.chClosed then .error "close of closed channel"
  else .ok ⟨true, false, true⟩

/-! ## Demuxer construction (`part_014`, `NewDemuxer` / `HasAudio`) -/

/-- Stream media types as FFmpeg reports them. -/
inductive MediaKind
  | video
  | audio
  | other
  deriving Repr, DecidableEq, BEq

/-- Abstract description of a container as the FFmpeg calls observe it:
whether `OpenInput` fails, whether `FindStreamInfo` fails, and the media
type of each stream in index order. -/
structure ContainerDesc where
  openFails : Bool
  findInfoFails : Bool
  streams : List MediaKind
  deriving Repr, DecidableEq

/-- Resource ledger events for the format context handle. -/
inductive ResEvent
  | allocFormatCtx
  | closeInput
  | freeFormatCtx
  deriving Repr, DecidableEq, BEq

/-- The stream-scanning loop of `NewDemuxer` (part_014 lines 52-67): the
first stream of the wanted kind sets the index (`stream.Index()`, here
the list position); `-1` when none exists. -/
def firstStreamIdx (k : MediaKind) : Nat → List MediaKind → Int
  | _, [] => -1
  | i, s :: rest => if s == k then (i : Int) else firstStreamIdx k (i + 1) rest

/-- The demuxer fields the claims observe. -/
structure DemuxerModel where
  videoIdx : Int
  audioIdx : Int
  deriving Repr, DecidableEq

/-- Embedding of `HasAudio` (part_014 lines 94-96). -/
def DemuxerModel.hasAudio (d : DemuxerModel) : Bool := d.audioIdx ≠ -1

/-- Embedding of `NewDemuxer` (part_014 lines 27-75) together with the
handle ledger: on `OpenInput` failure the freshly allocated format
context is freed and a descriptive error returned; on missing video
stream `Close` (CloseInput + Free) runs and a descriptive error is
returned; otherwise the demuxer is built with the first video/audio
stream indices. -/
def NewDemuxer (c : ContainerDesc) :
    Except String DemuxerModel × List ResEvent :=
  if c.openFails then
    (.error "failed to open input", [.allocFormatCtx, .freeFormatCtx])
  else if c.findInfoFails then
    (.error "failed to find stream info",
     [.allocFormatCtx, .closeInput, .freeFormatCtx])
  else
    let vIdx := firstStreamIdx .video 0 c.streams
    let aIdx := firstStreamIdx .audio 0 c.streams
    if vIdx = -1 then
      (.error "no video stream found",
       [.allocFormatCtx, .closeInput, .freeFormatCtx])
    else
      (.ok ⟨vIdx, aIdx⟩, [.allocFormatCtx])

/-- Every allocated format context handle has been released. -/
def handlesBalanced (evs : List ResEvent) : Bool :=
  evs.count .allocFormatCtx = evs.count .freeFormatCtx

/-! ## Shared-memory fallback (`player/render.go`, `RenderFrame`) -/

/-- Renderer fields read by the transmission choice: the `useShm` flag
and the monotonically increasing shm name counter. -/
structure RendererState where
  useShm : Bool
  shmIndex : Nat
  deriving Repr, DecidableEq

/-- How the pixel payload left the renderer. -/
inductive TransmitMethod
  | shm
  | direct
  deriving Repr, DecidableEq

/-- Embedding of the transmission branch of `RenderFrame` (render.go
lines 132-139), with `shmWriteOk i` telling whether the `writeImageShm`
attempt using counter value `i` succeeds: when `useShm` is set the shm
path is tried first (`writeImageShm` bumps `shmIndex` unconditionally,
render.go line 240) and its failure falls back to `writeImageDirect`
for this frame; `useShm` itself is never modified here. -/
def transmitFrame (shmWriteOk : Nat → Bool) (r : RendererState) :
    TransmitMethod × RendererState :=
  if r.useShm then
    let r2 : RendererState := ⟨r.useShm, r.shmIndex + 1⟩
    if shmWriteOk r.shmIndex then (.shm, r2) else (.direct, r2)
  else (.direct, r)

/-- Embedding of a whole `RenderFrame` call: the frame is transmitted by
one of the two methods and the returned error comes only from the final
`r.out.Write` (render.go line 151), never from a failed shm attempt. -/
def RenderFrame (shmWriteOk : Nat → Bool) (outWriteOk : Bool)
    (r : RendererState) : TransmitMethod × RendererState × Bool :=
  let t := transmitFrame shmWriteOk r
  (t.1, t.2, outWriteOk)

/-! ## Close / Play mutual exclusion (`player/player.go`) -/

/-- Actions of the thread inside `AVPlayer.Play` (player.go lines
135-149): `playMu.Lock()` on entry, the frames rendered by the
sessions it runs, and the deferred `playMu.Unlock()` on exit. -/
inductive PlayAct
  | acquirePlayMu
  | renderFrameAct
  | releasePlayMu
  deriving Repr, DecidableEq

/-- Actions of the thread inside `AVPlayer.Close` (player.go lines
272-292): `p.Stop()`, then `playMu.Lock(); playMu.Unlock()`, then the
renderer teardown (`CleanupSHM` and `p.renderer = nil`). -/
inductive CloseAct
  | stopSignal
  | acquirePlayMu
  | releasePlayMu
  | teardownRenderer
  deriving Repr, DecidableEq

/-- A scheduled event: which thread moved and what it did. -/
inductive Ev
  | p (a : PlayAct)
  | c (a : CloseAct)
  deriving Repr, DecidableEq

/-- The `Play` thread's program: the mutex is held for the whole call,
with all frame renders inside the critical section. -/
def playProgram (k : Nat) : List PlayAct :=
  .acquirePlayMu :: (List.replicate k .renderFrameAct ++ [.releasePlayMu])

/-- The `Close` thread's program, in source order. -/
def closeProgram : List CloseAct :=
  [.stopSignal, .acquirePlayMu, .releasePlayMu, .teardownRenderer]

/-- `Interleaves ps cs evs` holds when `evs` is an interleaving of the
two thread programs `ps` and `cs` that preserves each thread's order. -/
inductive Interleaves : List PlayAct → List CloseAct → List Ev → Prop
  | nil : Interleaves [] [] []
  | pstep {a ps cs evs} : Interleaves ps cs evs →
      Interleaves (a :: ps) cs (.p a :: evs)
  | cstep {a ps cs evs} : Interleaves ps cs evs →
      Interleaves ps (a :: cs) (.c a :: evs)

/-- Mutex owner: `none` free, `some true` Play holds, `some false` Close
holds. -/
def LockSt := Option Bool

/-- One scheduling step against the mutex: a blocked acquire (mutex
already held) cannot be scheduled, and a release without holding cannot
occur; both yield `none` (no such schedule exists). -/
def lockStep : Option Bool → Ev → Option (Option Bool)
  | none, .p .acquirePlayMu => some (some true)
  | some true, .p .releasePlayMu => some none
  | none, .c .acquirePlayMu => some (some false)
  | some false, .c .releasePlayMu => some none
  | st, .p .renderFrameAct => some st
  | st, .c .stopSignal => some st
  | st, .c .teardownRenderer => some st
  | _, _ => none

/-- Run a schedule against the mutex from a given owner state; `none`
when some step was impossible. -/
def runLock : Option Bool → List Ev → Option (Option Bool)
  | st, [] => some st
  | st, e :: rest =>
    match lockStep st e with
    | none => none
    | some st2 => runLock st2 rest

/-- Does a frame render occur after the renderer teardown anywhere in
the schedule? -/
def renderAfterTeardown : List Ev → Bool → Bool
  | [], _ => false
  | .p .renderFrameAct :: rest, sawTear =>
    sawTear || renderAfterTeardown rest sawTear
  | .c .teardownRenderer :: rest, _ => renderAfterTeardown rest true
  | _ :: rest, sawTear => renderAfterTeardown rest sawTear

/-- Is the first `playMu` acquisition in the schedule the Play thread's
one (the claim's "in-flight Play" scenario)? -/
def playAcquiresFirst : List Ev → Bool
  | [] => true
  | .p .acquirePlayMu :: _ => true
  | .c .acquirePlayMu :: _ => false
  | _ :: rest => playAcquiresFirst rest

/-! ## Session audio field and nil dereference (`session.go`, `part_012`) -/

/-- Embedding of the audio branch of `newPlaySession` (session.go lines
48-54): the `audio` field stays nil when the demuxer reports no audio
stream, and is reset to nil when `NewAudioPlayer` fails. -/
def newSessionAudio (d : DemuxerModel) (audioInitOk : Bool) : Option Unit :=
  if d.hasAudio && audioInitOk then some () else none

/-- What happens at the unconditional `s.audio.Start()` call in `run`
(session.go line 89): `AudioPlayer.Start` stores into `a.playing`
(part_012 line 177), a field access through the receiver, so a nil
`*AudioPlayer` panics. -/
inductive RunOutcome
  | nilDeref
  | started
  deriving Repr, DecidableEq

/-- Embedding of `AudioPlayer.Start` as invoked from `run` on the
session's possibly-nil audio field. -/
def audioStartOn : Option Unit → RunOutcome
  | none => .nilDeref
  | some _ => .started

/-! # Theorems -/

/-- C1: in the video render loop, for every decoded frame with audio
playing, with `diff = frame.PTS - audioClock`: `diff > 0.1` sleeps
`diff * 0.2` seconds and still renders the frame; `diff < -0.1` drops
the frame (renderer not invoked, no sleep) and the loop proceeds to the
next packet; otherwise the frame is rendered immediately. -/
theorem videoRenderLoop_sync_decision (audio : AudioView) (c : VPacketCtx)
    (f : VFrame) (rest : List VPacketCtx)
    (hplay : c.playing = true)
    (hsp : (c.paused && c.stopDuringPause) = false)
    (herr : c.decodeErr = false) (hdec : c.decoded = some f)
    (hpres : audio.present = true) (hisp : audio.isPlaying = true) :
    (f.pts - audio.time > SyncThreshold →
      processVideoPacket audio c =
        .sleptAndRendered ((f.pts - audio.time) * (1/5)) ∧
      rendererInvoked (processVideoPacket audio c) = true) ∧
    (f.pts - audio.time < -SyncThreshold →
      processVideoPacket audio c = .dropped ∧
      rendererInvoked (processVideoPacket audio c) = false ∧
      videoRenderLoop audio (c :: rest) =
        .dropped :: videoRenderLoop audio rest) ∧
    (-SyncThreshold ≤ f.pts - audio.time → f.pts - audio.time ≤ SyncThreshold →
      processVideoPacket audio c = .rendered) := by
  have hbody : processVideoPacket audio c =
      match syncDecide f.pts audio.time with
      | .sleepRender d => .sleptAndRendered d
      | .drop => .dropped
      | .renderNow => .rendered := by
    simp [processVideoPacket, hplay, hsp, herr, hdec, hpres, hisp]
  refine ⟨fun hgt => ?_, fun hlt => ?_, fun hge hle => ?_⟩
  · have hd : syncDecide f.pts audio.time =
        .sleepRender ((f.pts - audio.time) * (1/5)) := by
      simp [syncDecide, hgt]
    rw [hbody, hd]
    exact ⟨rfl, rfl⟩
  · have hd : syncDecide f.pts audio.time = .drop := by
      have : ¬ (f.pts - audio.time > SyncThreshold) := by
        unfold SyncThreshold at hlt ⊢; linarith
      simp [syncDecide, this, hlt]
    have he : processVideoPacket audio c = .dropped := by rw [hbody, hd]
    refine ⟨he, by rw [he]; rfl, ?_⟩
    simp [videoRenderLoop, he, stopsLoop]
  · have hd : syncDecide f.pts audio.time = .renderNow := by
      have h1 : ¬ (f.pts - audio.time > SyncThreshold) := by
        unfold SyncThreshold at hle ⊢; linarith
      have h2 : ¬ (f.pts - audio.time < -SyncThreshold) := by
        unfold SyncThreshold at hge ⊢; linarith
      simp [syncDecide, h1, h2]
    rw [hbody, hd]

/-- Witness for C1 at the spec's concrete test vectors: frame.PTS=2.00
with audioClock=1.85 sleeps 0.03s then renders; frame.PTS=1.50 with
audioClock=1.70 is dropped and the loop proceeds. -/
theorem videoRenderLoop_sync_decision_witness :
    ((2 : ℚ) - 37/20 > SyncThreshold ∧
      processVideoPacket ⟨true, true, 37/20⟩
        ⟨true, false, false, false, some ⟨2⟩⟩ =
        .sleptAndRendered (((2 : ℚ) - 37/20) * (1/5))) ∧
    ((3/2 : ℚ) - 17/10 < -SyncThreshold ∧
      processVideoPacket ⟨true, true, 17/10⟩
        ⟨true, false, false, false, some ⟨3/2⟩⟩ = .dropped) := by
  have hgt : (2 : ℚ) - 37/20 > SyncThreshold := by unfold SyncThreshold; norm_num
  have hlt : (3/2 : ℚ) - 17/10 < -SyncThreshold := by unfold SyncThreshold; norm_num
  refine ⟨⟨hgt, ?_⟩, ⟨hlt, ?_⟩⟩
  · exact ((videoRenderLoop_sync_decision ⟨true, true, 37/20⟩
      ⟨true, false, false, false, some ⟨2⟩⟩ ⟨2⟩ [] rfl rfl rfl rfl rfl rfl).1 hgt).1
  · exact (((videoRenderLoop_sync_decision ⟨true, true, 17/10⟩
      ⟨true, false, false, false, some ⟨3/2⟩⟩ ⟨3/2⟩ [] rfl rfl rfl rfl rfl rfl).2.1 hlt)).1

/-- C2 counterexample: a video packet reaching the render loop while
`p.playing` is false (the post-stop drain) is freed without ever being
fed to the decoder, so the claim's "never skipped ... including packets
drained after a stop/shutdown request" fails on the code. -/
theorem videoRenderLoop_drain_skips_decoder :
    processVideoPacket ⟨true, true, 0⟩
      ⟨false, false, false, false, some ⟨0⟩⟩ = .freedNotDecoded ∧
    fedToDecoder (processVideoPacket ⟨true, true, 0⟩
      ⟨false, false, false, false, some ⟨0⟩⟩) = false ∧
    videoRenderLoop ⟨true, true, 0⟩
      [⟨false, false, false, false, some ⟨0⟩⟩] = [.freedNotDecoded] := by
  refine ⟨rfl, rfl, rfl⟩

/-- C2 amended: every video packet that reaches the render loop while
playback is active (`p.playing` set, including while paused, provided
no stop arrives during the pause poll) is fed to the video decoder;
packets drained after a stop request are freed without decoding. -/
theorem videoRenderLoop_feeds_decoder_while_playing
    (audio : AudioView) (c : VPacketCtx)
    (hplay : c.playing = true)
    (hsp : (c.paused && c.stopDuringPause) = false) :
    fedToDecoder (processVideoPacket audio c) = true := by
  rcases hde : c.decodeErr with _ | _
  · rcases hdec : c.decoded with _ | f
    · simp [processVideoPacket, hplay, hsp, hde, hdec, fedToDecoder]
    · rcases hap : audio.present && audio.isPlaying with _ | _
      · simp [processVideoPacket, hplay, hsp, hde, hdec, hap, fedToDecoder]
      · rcases hsd : syncDecide f.pts audio.time with d | _ | _ <;>
          simp [processVideoPacket, hplay, hsp, hde, hdec, hap, hsd, fedToDecoder]
  · simp [processVideoPacket, hplay, hsp, hde, fedToDecoder]

/-- Witness for C2's amended theorem: a paused packet with playback
active is still decoded. -/
theorem videoRenderLoop_feeds_decoder_while_playing_witness :
    fedToDecoder (processVideoPacket ⟨true, true, 0⟩
      ⟨true, true, false, false, some ⟨0⟩⟩) = true :=
  videoRenderLoop_feeds_decoder_while_playing ⟨true, true, 0⟩
    ⟨true, true, false, false, some ⟨0⟩⟩ rfl rfl

/-- C5: the session `run` body (session.go lines 79-108) contains no
pre-buffering step at all — `s.audio.Start()` is its second action,
executed immediately after spawning the audio decode goroutine and
before any packet is demuxed or decoded, with no gate on
`BufferSize()`; the ~200ms accumulation described by the repository's
own documentation is absent from the code. -/
theorem runSteps_have_no_prebuffer :
    RunStep.prebufferAudio ∉ runSteps ∧
    runSteps[1]? = some .audioStart ∧
    runSteps.indexOf .audioStart < runSteps.indexOf .startDemuxGoroutine := by
  refine ⟨by decide, rfl, by decide⟩

/-- C6: invoking the session stop signal twice in sequence neither
errors nor deadlocks: from the fresh session state the first `stop`
closes `stopCh` exactly once, and the second invocation is a no-op
returning the unchanged state. -/
theorem sessionStop_idempotent :
    sessionStop freshStopState = .ok ⟨true, false, true⟩ ∧
    sessionStop ⟨true, false, true⟩ = .ok ⟨true, false, true⟩ := by
  refine ⟨rfl, rfl⟩

/-- C8: with shared memory enabled, a failed shm write for a frame falls
back to the direct inline path for that frame only: the frame is
transmitted (`RenderFrame` reports success, the shm error does not
propagate), `useShm` stays set, and the next frame attempts the shm
path first again (succeeding whenever its write succeeds). -/
theorem RenderFrame_shm_fallback (shmWriteOk : Nat → Bool)
    (r : RendererState) (hshm : r.useShm = true)
    (hfail : shmWriteOk r.shmIndex = false) :
    (RenderFrame shmWriteOk true r).1 = .direct ∧
    (RenderFrame shmWriteOk true r).2.2 = true ∧
    (RenderFrame shmWriteOk true r).2.1.useShm = true ∧
    (shmWriteOk ((RenderFrame shmWriteOk true r).2.1.shmIndex) = true →
      (transmitFrame shmWriteOk (RenderFrame shmWriteOk true r).2.1).1 = .shm) := by
  have h2 : RenderFrame shmWriteOk true r = (.direct, ⟨true, r.shmIndex + 1⟩, true) := by
    simp [RenderFrame, transmitFrame, hshm, hfail]
  rw [h2]
  refine ⟨rfl, rfl, rfl, fun hok => ?_⟩
  simp only [transmitFrame, if_true]
  simp only at hok
  simp [hok]

/-- Witness for C8: frame 0's shm write fails and falls back to direct,
frame 1's shm write succeeds and uses the shm path. -/
theorem RenderFrame_shm_fallback_witness :
    (⟨true, 0⟩ : RendererState).useShm = true ∧
    (fun n => decide (0 < n)) 0 = false ∧
    (RenderFrame (fun n => decide (0 < n)) true ⟨true, 0⟩).1 = .direct ∧
    (transmitFrame (fun n => decide (0 < n))
      (RenderFrame (fun n => decide (0 < n)) true ⟨true, 0⟩).2.1).1 = .shm := by
  have h := RenderFrame_shm_fallback (fun n => decide (0 < n)) ⟨true, 0⟩ rfl rfl
  exact ⟨rfl, rfl, h.1, h.2.2.2 rfl⟩

/-- The stream scan returns `-1` exactly when no stream of the wanted
kind exists, for any starting index. -/
theorem firstStreamIdx_eq_neg_one (k : MediaKind) (l : List MediaKind) :
    ∀ i : Nat, (firstStreamIdx k i l = -1 ↔ l.any (fun s => s == k) = false) := by
  induction l with
  | nil => intro i; simp [firstStreamIdx]
  | cons s rest ih =>
    intro i
    by_cases h : s == k
    · simp only [firstStreamIdx, h, if_true, List.any_cons, Bool.or_eq_false_iff]
      constructor
      · intro hi; omega
      · rintro ⟨h1, _⟩; simp [h] at h1
    · simp only [firstStreamIdx, h, if_false, List.any_cons, Bool.or_eq_false_iff,
        Bool.false_eq_true]
      rw [ih (i + 1)]
      simp [h]

/-- C7: `NewDemuxer` returns a descriptive error when the file cannot be
opened or when the container has no video stream, and on both error
paths every acquired format-context handle is released; on success
`HasAudio()` is true exactly when the container holds an audio
stream. -/
theorem NewDemuxer_errors_and_hasAudio (c : ContainerDesc) :
    (c.openFails = true →
      (NewDemuxer c).1 = .error "failed to open input" ∧
      handlesBalanced (NewDemuxer c).2 = true) ∧
    (c.openFails = false → c.findInfoFails = false →
      c.streams.any (fun s => s == .video) = false →
      (NewDemuxer c).1 = .error "no video stream found" ∧
      handlesBalanced (NewDemuxer c).2 = true) ∧
    (∀ d, (NewDemuxer c).1 = .ok d →
      d.hasAudio = c.streams.any (fun s => s == .audio)) := by
  refine ⟨fun hopen => ?_, fun hopen hinfo hnovid => ?_, fun d hd => ?_⟩
  · refine ⟨by simp [NewDemuxer, hopen], ?_⟩
    simp only [NewDemuxer, hopen, if_true]
    decide
  · have hv : firstStreamIdx .video 0 c.streams = -1 :=
      (firstStreamIdx_eq_neg_one .video c.streams 0).2 hnovid
    refine ⟨by simp [NewDemuxer, hopen, hinfo, hv], ?_⟩
    simp only [NewDemuxer, hopen, hinfo, hv, Bool.false_eq_true, if_false, if_true]
    decide
  · rcases hopen : c.openFails with _ | _
    · rcases hinfo : c.findInfoFails with _ | _
      · rcases hv : decide (firstStreamIdx .video 0 c.streams = -1) with _ | _
        · have hv2 : ¬ firstStreamIdx .video 0 c.streams = -1 := by
            simpa using hv
          simp only [NewDemuxer, hopen, hinfo, Bool.false_eq_true, if_false,
            hv2, if_false] at hd
          cases hd
          simp only [DemuxerModel.hasAudio]
          rcases ha : c.streams.any (fun s => s == MediaKind.audio) with _ | _
          · have := (firstStreamIdx_eq_neg_one .audio c.streams 0).2 ha
            simp [this]
          · have : ¬ firstStreamIdx .audio 0 c.streams = -1 := by
              intro hcontra
              have := (firstStreamIdx_eq_neg_one .audio c.streams 0).1 hcontra
              rw [this] at ha
              exact Bool.false_ne_true ha
            simp [this]
        · have hv2 : firstStreamIdx .video 0 c.streams = -1 := by simpa using hv
          simp [NewDemuxer, hopen, hinfo, hv2] at hd
      · simp [NewDemuxer, hopen, hinfo] at hd
    · simp [NewDemuxer, hopen] at hd

/-- Witness for C7: an unopenable file errors with handles balanced; a
container with only an audio stream errors "no video stream found"; a
video+audio container reports `HasAudio` true. -/
theorem NewDemuxer_errors_and_hasAudio_witness :
    ((NewDemuxer ⟨true, false, []⟩).1 = .error "failed to open input" ∧
      handlesBalanced (NewDemuxer ⟨true, false, []⟩).2 = true) ∧
    ((NewDemuxer ⟨false, false, [.audio]⟩).1 = .error "no video stream found" ∧
      handlesBalanced (NewDemuxer ⟨false, false, [.audio]⟩).2 = true) ∧
    (∀ d, (NewDemuxer ⟨false, false, [.video, .audio]⟩).1 = .ok d →
      d.hasAudio = true) := by
  refine ⟨(NewDemuxer_errors_and_hasAudio ⟨true, false, []⟩).1 rfl,
    (NewDemuxer_errors_and_hasAudio ⟨false, false, [.audio]⟩).2.1 rfl rfl (by decide),
    fun d hd => ?_⟩
  have := (NewDemuxer_errors_and_hasAudio ⟨false, false, [.video, .audio]⟩).2.2 d hd
  simpa using this

/-- C10: for a valid media file with a video stream but no audio stream,
`newPlaySession` succeeds with a nil audio field, and `run`'s
unconditional `s.audio.Start()` dereferences the nil `*AudioPlayer` —
the crash is reachable even though the render loop has a video-only
frame-paced fallback branch that renders without audio. -/
theorem run_nil_audio_is_reachable (c : ContainerDesc)
    (hopen : c.openFails = false) (hinfo : c.findInfoFails = false)
    (hvid : c.streams.any (fun s => s == .video) = true)
    (hnoaud : c.streams.any (fun s => s == .audio) = false) :
    (∃ d, (NewDemuxer c).1 = .ok d ∧ d.hasAudio = false ∧
      (∀ audioInitOk, newSessionAudio d audioInitOk = none ∧
        audioStartOn (newSessionAudio d audioInitOk) = .nilDeref)) ∧
    processVideoPacket ⟨false, false, 0⟩
      ⟨true, false, false, false, some ⟨0⟩⟩ = .rendered := by
  have hv : ¬ firstStreamIdx .video 0 c.streams = -1 := by
    intro hcontra
    have := (firstStreamIdx_eq_neg_one .video c.streams 0).1 hcontra
    rw [this] at hvid
    exact Bool.false_ne_true hvid
  have ha : firstStreamIdx .audio 0 c.streams = -1 :=
    (firstStreamIdx_eq_neg_one .audio c.streams 0).2 hnoaud
  refine ⟨⟨⟨firstStreamIdx .video 0 c.streams, firstStreamIdx .audio 0 c.streams⟩,
    ?_, ?_, fun audioInitOk => ?_⟩, rfl⟩
  · simp [NewDemuxer, hopen, hinfo, hv]
  · simp [DemuxerModel.hasAudio, ha]
  · have hna : newSessionAudio
        ⟨firstStreamIdx .video 0 c.streams, firstStreamIdx .audio 0 c.streams⟩
        audioInitOk = none := by
      simp [newSessionAudio, DemuxerModel.hasAudio, ha]
    exact ⟨hna, by rw [hna]; rfl⟩

/-- Witness for C10: a container with exactly one video stream. -/
theorem run_nil_audio_is_reachable_witness :
    (∃ d, (NewDemuxer ⟨false, false, [.video]⟩).1 = .ok d ∧
      d.hasAudio = false ∧
      (∀ audioInitOk, newSessionAudio d audioInitOk = none ∧
        audioStartOn (newSessionAudio d audioInitOk) = .nilDeref)) ∧
    processVideoPacket ⟨false, false, 0⟩
      ⟨true, false, false, false, some ⟨0⟩⟩ = .rendered :=
  run_nil_audio_is_reachable ⟨false, false, [.video]⟩ rfl rfl (by decide) (by decide)

/-- Number of real samples a `Stream` call consumes: none while paused,
otherwise one per 4 buffered bytes up to the requested count. -/
def samplesPlayed (s : StreamerState) (n : Nat) : Nat :=
  if s.paused then 0 else min n (s.sampleBuf.length / 4)

/-- Characterization of the `Stream` consumption loop: it always fills
exactly `n` output slots, consumes `min n (length/4)` samples of 4
bytes each from the front of the buffer, and zero-fills every slot
beyond the consumed ones. -/
theorem streamCore_spec (n : Nat) : ∀ buf : List Nat,
    (streamCore n buf).1.length = n ∧
    (streamCore n buf).2.1 = min n (buf.length / 4) ∧
    (streamCore n buf).2.2 = buf.drop (4 * min n (buf.length / 4)) ∧
    (streamCore n buf).1.drop (min n (buf.length / 4)) =
      List.replicate (n - min n (buf.length / 4)) ((0 : ℚ), (0 : ℚ)) := by
  induction n with
  | zero => intro buf; simp [streamCore]
  | succ k ih =>
    intro buf
    match buf with
    | [] => simp [streamCore]
    | [b0] => simp [streamCore]
    | [b0, b1] => simp [streamCore]
    | [b0, b1, b2] =>
      refine ⟨by simp [streamCore], ?_, ?_, ?_⟩ <;> simp [streamCore]
    | b0 :: b1 :: b2 :: b3 :: rest =>
      obtain ⟨ih1, ih2, ih3, ih4⟩ := ih rest
      have hlen : (b0 :: b1 :: b2 :: b3 :: rest).length / 4 = rest.length / 4 + 1 := by
        simp only [List.length_cons]
        omega
      have hmin : min (k + 1) ((b0 :: b1 :: b2 :: b3 :: rest).length / 4) =
          min k (rest.length / 4) + 1 := by
        rw [hlen]; omega
      refine ⟨?_, ?_, ?_, ?_⟩
      · simp [streamCore, ih1]
      · simp only [streamCore, ih2, hmin]
      · simp only [streamCore, hmin]
        have : 4 * (min k (rest.length / 4) + 1) = 4 * min k (rest.length / 4) + 4 := by
          ring
        rw [this]
        simp [List.drop_succ_cons, ih3]
      · simp only [streamCore, hmin]
        simp only [List.drop_succ_cons, ih4]
        congr 1
        omega

/-- C3: every `audioStreamer.Stream` call returns `(len(samples), true)`
— never a terminal status — zero-fills the output while paused and
beyond the exhausted buffer, and advances the master clock by exactly
`samplesPlayed / AudioSampleRate` where `samplesPlayed` counts only
real samples consumed from the buffer; in particular the clock does not
move while paused or while only silence is emitted. -/
theorem audioStreamer_Stream_contract (s : StreamerState) (n : Nat) :
    (audioStreamer.Stream s n).n = n ∧
    (audioStreamer.Stream s n).ok = true ∧
    (audioStreamer.Stream s n).out.length = n ∧
    (audioStreamer.Stream s n).state.clock =
      s.clock + (samplesPlayed s n : ℚ) / (AudioSampleRate : ℚ) ∧
    (audioStreamer.Stream s n).out.drop (samplesPlayed s n) =
      List.replicate (n - samplesPlayed s n) ((0 : ℚ), (0 : ℚ)) ∧
    (s.paused = true → (audioStreamer.Stream s n).state = s) := by
  obtain ⟨h1, h2, h3, h4⟩ := streamCore_spec n s.sampleBuf
  by_cases hp : s.paused = true
  · have hsp : samplesPlayed s n = 0 := by simp [samplesPlayed, hp]
    refine ⟨?_, ?_, ?_, ?_, ?_, fun _ => ?_⟩ <;>
      simp [audioStreamer.Stream, hp, hsp]
  · have hpf : s.paused = false := by simpa using hp
    have hsp : samplesPlayed s n = min n (s.sampleBuf.length / 4) := by
      simp [samplesPlayed, hpf]
    refine ⟨?_, ?_, ?_, ?_, ?_, fun hcontra => ?_⟩
    · simp [audioStreamer.Stream, hpf]
    · simp [audioStreamer.Stream, hpf]
    · simp [audioStreamer.Stream, hpf, h1]
    · simp only [audioStreamer.Stream, hpf, Bool.false_eq_true, if_false]
      rw [hsp, ← h2]
      rcases hz : (streamCore n s.sampleBuf).2.1 with _ | m
      · simp
      · simp
    · simp only [audioStreamer.Stream, hpf, Bool.false_eq_true, if_false, hsp]
      exact h4
    · rw [hpf] at hcontra
      exact absurd hcontra Bool.false_ne_true

/-- Witness for C3 on a concrete call: paused state with a 1-sample
buffer leaves the clock and state untouched; the same state unpaused
consumes the sample and advances the clock by 1/44100. -/
theorem audioStreamer_Stream_contract_witness :
    (audioStreamer.Stream ⟨true, [1, 2, 3, 4], 0⟩ 2).state =
      ⟨true, [1, 2, 3, 4], 0⟩ ∧
    (audioStreamer.Stream ⟨false, [1, 2, 3, 4], 0⟩ 2).state.clock =
      0 + ((samplesPlayed ⟨false, [1, 2, 3, 4], 0⟩ 2 : ℚ)) / (AudioSampleRate : ℚ) ∧
    (audioStreamer.Stream ⟨false, [1, 2, 3, 4], 0⟩ 2).ok = true := by
  refine ⟨(audioStreamer_Stream_contract ⟨true, [1, 2, 3, 4], 0⟩ 2).2.2.2.2.2 rfl,
    (audioStreamer_Stream_contract ⟨false, [1, 2, 3, 4], 0⟩ 2).2.2.2.1,
    (audioStreamer_Stream_contract ⟨false, [1, 2, 3, 4], 0⟩ 2).2.1⟩

/-- Alphabet indices invert the alphabet lookup on all 64 sextets. -/
theorem b64Index_b64Char : ∀ s : Fin 64, b64Index (b64Char s.val) = s.val := by
  decide

/-- No alphabet character is the padding character. -/
theorem b64Char_ne_pad : ∀ s : Fin 64, b64Char s.val ≠ '=' := by
  decide

/-- Bound-form restatement of `b64Index_b64Char`. -/
theorem b64Index_b64Char_of_lt {s : Nat} (h : s < 64) : b64Index (b64Char s) = s :=
  b64Index_b64Char ⟨s, h⟩

/-- Bound-form restatement of `b64Char_ne_pad`. -/
theorem b64Char_ne_pad_of_lt {s : Nat} (h : s < 64) : b64Char s ≠ '=' :=
  b64Char_ne_pad ⟨s, h⟩

/-- Filtering out padding keeps a non-padding head. -/
theorem filter_pad_cons_ne {c : Char} (h : c ≠ '=') (l : List Char) :
    (c :: l).filter (fun x => x ≠ '=') = c :: l.filter (fun x => x ≠ '=') := by
  simp [List.filter_cons, h]

/-- Filtering out padding drops a padding head. -/
theorem filter_pad_cons_eq (l : List Char) :
    ('=' :: l).filter (fun x => x ≠ '=') = l.filter (fun x => x ≠ '=') := by
  simp [List.filter_cons]

/-- Base64 round trip: decoding the encoding of any byte list returns
the original bytes. -/
theorem b64_roundtrip : ∀ data : List Nat, (∀ b ∈ data, b < 256) →
    b64Decode (b64Encode data) = data := by
  intro data
  induction data using b64Encode.induct with
  | case1 => intro h; rfl
  | case2 b0 =>
    intro h
    have hb0 : b0 < 256 := h b0 (by simp)
    have h0 : b0 / 4 < 64 := by omega
    have h1 : b0 % 4 * 16 < 64 := by omega
    unfold b64Encode b64Decode
    rw [filter_pad_cons_ne (b64Char_ne_pad_of_lt h0),
      filter_pad_cons_ne (b64Char_ne_pad_of_lt h1),
      filter_pad_cons_eq, filter_pad_cons_eq]
    simp only [List.filter_nil, List.map_cons, List.map_nil,
      b64Index_b64Char_of_lt h0, b64Index_b64Char_of_lt h1]
    unfold b64DecodeSextets
    simp only [List.cons.injEq, and_true]
    omega
  | case3 b0 b1 =>
    intro h
    have hb0 : b0 < 256 := h b0 (by simp)
    have hb1 : b1 < 256 := h b1 (by simp)
    have h0 : b0 / 4 < 64 := by omega
    have h1 : b0 % 4 * 16 + b1 / 16 < 64 := by omega
    have h2 : b1 % 16 * 4 < 64 := by omega
    unfold b64Encode b64Decode
    rw [filter_pad_cons_ne (b64Char_ne_pad_of_lt h0),
      filter_pad_cons_ne (b64Char_ne_pad_of_lt h1),
      filter_pad_cons_ne (b64Char_ne_pad_of_lt h2), filter_pad_cons_eq]
    simp only [List.filter_nil, List.map_cons, List.map_nil,
      b64Index_b64Char_of_lt h0, b64Index_b64Char_of_lt h1,
      b64Index_b64Char_of_lt h2]
    unfold b64DecodeSextets
    simp only [List.cons.injEq, and_true]
    exact ⟨by omega, by omega⟩
  | case4 b0 b1 b2 rest ih =>
    intro h
    have hb0 : b0 < 256 := h b0 (by simp)
    have hb1 : b1 < 256 := h b1 (by simp)
    have hb2 : b2 < 256 := h b2 (by simp)
    have hrest : ∀ b ∈ rest, b < 256 := fun b hb => h b (by simp [hb])
    have h0 : b0 / 4 < 64 := by omega
    have h1 : b0 % 4 * 16 + b1 / 16 < 64 := by omega
    have h2 : b1 % 16 * 4 + b2 / 64 < 64 := by omega
    have h3 : b2 % 64 < 64 := by omega
    have ih2 := ih hrest
    unfold b64Decode at ih2
    show b64Decode (b64Char (b0 / 4) :: b64Char (b0 % 4 * 16 + b1 / 16) ::
      b64Char (b1 % 16 * 4 + b2 / 64) :: b64Char (b2 % 64) :: b64Encode rest) = _
    unfold b64Decode
    rw [filter_pad_cons_ne (b64Char_ne_pad_of_lt h0),
      filter_pad_cons_ne (b64Char_ne_pad_of_lt h1),
      filter_pad_cons_ne (b64Char_ne_pad_of_lt h2),
      filter_pad_cons_ne (b64Char_ne_pad_of_lt h3)]
    simp only [List.map_cons, b64Index_b64Char_of_lt h0, b64Index_b64Char_of_lt h1,
      b64Index_b64Char_of_lt h2, b64Index_b64Char_of_lt h3]
    unfold b64DecodeSextets
    simp only [List.cons.injEq]
    exact ⟨by omega, by omega, by omega, ih2⟩

/-- Concatenating the chunk payloads restores the full base64 text. -/
theorem chunkPayloads_flatten (enc : List Char) :
    ((chunkPayloads enc).map Prod.snd).flatten = enc := by
  induction enc using chunkPayloads.induct with
  | case1 => simp [chunkPayloads]
  | case2 enc hne hlen ih =>
    rw [chunkPayloads, if_neg hne, if_pos hlen]
    rw [List.map_cons, List.flatten_cons, ih]
    exact List.take_append_drop 4096 enc
  | case3 enc hne hlen =>
    rw [chunkPayloads, if_neg hne, if_neg hlen]
    simp

/-- The last element survives a cons onto a nonempty list. -/
theorem getLast?_cons_of_ne {α : Type} (a : α) {l : List α} (h : l ≠ []) :
    (a :: l).getLast? = l.getLast? := by
  cases l with
  | nil => exact absurd rfl h
  | cons b t => exact List.getLast?_cons_cons

/-- Chunking a nonempty text yields at least one chunk. -/
theorem chunkPayloads_ne_nil {enc : List Char} (h : enc ≠ []) :
    chunkPayloads enc ≠ [] := by
  rw [chunkPayloads, if_neg h]
  by_cases hl : 4096 < enc.length
  · rw [if_pos hl]; simp
  · rw [if_neg hl]; simp

/-- Every chunk but the last carries `m=1` and a full 4096-character
payload; the last chunk carries `m=0`. -/
theorem chunkPayloads_shape (enc : List Char) :
    (∀ mp ∈ (chunkPayloads enc).dropLast, mp.1 = 1 ∧ mp.2.length = 4096) ∧
    (∀ mp, (chunkPayloads enc).getLast? = some mp → mp.1 = 0) := by
  induction enc using chunkPayloads.induct with
  | case1 => simp [chunkPayloads]
  | case2 enc hne hlen ih =>
    rw [chunkPayloads, if_neg hne, if_pos hlen]
    have hrec : chunkPayloads (enc.drop 4096) ≠ [] := by
      apply chunkPayloads_ne_nil
      intro hcontra
      have := congrArg List.length hcontra
      simp only [List.length_drop, List.length_nil] at this
      omega
    constructor
    · intro mp hmp
      rw [List.dropLast_cons_of_ne_nil hrec] at hmp
      rcases List.mem_cons.1 hmp with heq | hmem
      · subst heq
        refine ⟨rfl, ?_⟩
        simp only [List.length_take]
        omega
      · exact ih.1 mp hmem
    · intro mp hmp
      rw [getLast?_cons_of_ne _ hrec] at hmp
      exact ih.2 mp hmp
  | case3 enc hne hlen =>
    rw [chunkPayloads, if_neg hne, if_neg hlen]
    constructor
    · intro mp hmp; simp at hmp
    · intro mp hmp
      simp only [List.getLast?_singleton, Option.some.injEq] at hmp
      rw [← hmp]

/-- The emitted chunks of `writeImageDirect` carry exactly the
`(m, payload)` pairs of the raw chunk split. -/
theorem writeImageDirect_mPayloads (data : List Nat)
    (format width height id : Nat) :
    (writeImageDirect data format width height id).map
      (fun ch => (ch.m, ch.payload)) = chunkPayloads (b64Encode data) := by
  unfold writeImageDirect
  cases hc : chunkPayloads (b64Encode data) with
  | nil => rfl
  | cons x rest =>
    simp only [List.map_cons, List.map_map]
    refine congrArg₂ List.cons rfl ?_
    have hfe : ((fun ch => (ch.m, ch.payload)) ∘ fun mp : Nat × List Char =>
        (⟨none, mp.1, mp.2⟩ : KittyChunk)) = (fun mp : Nat × List Char => mp) := by
      funext mp; rfl
    rw [hfe]
    simp

/-- C4: for every pixel buffer sent via the direct inline path,
concatenating all emitted chunk payloads and base64-decoding the result
reproduces the original bytes exactly; the base64 text is split at the
fixed 4096-character boundary (all chunks but the last are full-size
with `m=1`, the last has `m=0`), the first chunk carries the full image
metadata `a=T,f,s,v,i`, and later chunks carry no header. -/
theorem writeImageDirect_roundtrip (data : List Nat)
    (format width height id : Nat) (h : ∀ b ∈ data, b < 256) :
    b64Decode (((writeImageDirect data format width height id).map
      KittyChunk.payload).flatten) = data ∧
    (data ≠ [] →
      (writeImageDirect data format width height id).head?.map
        KittyChunk.header = some (some ⟨'T', format, width, height, id, 2⟩)) ∧
    (∀ ch ∈ (writeImageDirect data format width height id).dropLast,
      ch.m = 1 ∧ ch.payload.length = 4096) ∧
    (∀ ch, (writeImageDirect data format width height id).getLast? = some ch →
      ch.m = 0) ∧
    (∀ ch ∈ (writeImageDirect data format width height id).tail,
      ch.header = none) := by
  have hmp := writeImageDirect_mPayloads data format width height id
  have hpay : (writeImageDirect data format width height id).map
      KittyChunk.payload = (chunkPayloads (b64Encode data)).map Prod.snd := by
    have := congrArg (List.map Prod.snd) hmp
    rw [List.map_map] at this
    exact this
  have hm : (writeImageDirect data format width height id).map
      KittyChunk.m = (chunkPayloads (b64Encode data)).map Prod.fst := by
    have := congrArg (List.map Prod.fst) hmp
    rw [List.map_map] at this
    exact this
  obtain ⟨hshape1, hshape2⟩ := chunkPayloads_shape (b64Encode data)
  refine ⟨?_, fun hne => ?_, fun ch hch => ?_, fun ch hch => ?_, fun ch hch => ?_⟩
  · rw [hpay, chunkPayloads_flatten]
    exact b64_roundtrip data h
  · have hne2 : b64Encode data ≠ [] := by
      cases data with
      | nil => exact absurd rfl hne
      | cons b t =>
        cases t with
        | nil => simp [b64Encode]
        | cons b2 t2 =>
          cases t2 with
          | nil => simp [b64Encode]
          | cons b3 t3 => simp [b64Encode]
    have hcne := chunkPayloads_ne_nil hne2
    unfold writeImageDirect
    cases hc : chunkPayloads (b64Encode data) with
    | nil => exact absurd hc hcne
    | cons x rest => rfl
  · have hmem : (ch.m, ch.payload) ∈
        (chunkPayloads (b64Encode data)).dropLast := by
      rw [← hmp, ← List.map_dropLast]
      exact List.mem_map_of_mem _ hch
    exact hshape1 _ hmem
  · have hlast : (chunkPayloads (b64Encode data)).getLast? =
        some (ch.m, ch.payload) := by
      rw [← hmp, List.getLast?_map, hch]
      rfl
    exact hshape2 _ hlast
  · unfold writeImageDirect at hch
    cases hc : chunkPayloads (b64Encode data) with
    | nil => rw [hc] at hch; simp at hch
    | cons x rest =>
      rw [hc] at hch
      simp only [List.tail_cons] at hch
      obtain ⟨mp, _, hmp2⟩ := List.mem_map.1 hch
      rw [← hmp2]

/-- Witness for C4 on the concrete buffer [77, 97, 110]: a single chunk
with full header, `m=0`, and an exact round trip. -/
theorem writeImageDirect_roundtrip_witness :
    b64Decode (((writeImageDirect [77, 97, 110] 24 1 1 1).map
      KittyChunk.payload).flatten) = [77, 97, 110] ∧
    (writeImageDirect [77, 97, 110] 24 1 1 1).head?.map KittyChunk.header =
      some (some ⟨'T', 24, 1, 1, 1, 2⟩) := by
  have h := writeImageDirect_roundtrip [77, 97, 110] 24 1 1 1 (by decide)
  exact ⟨h.1, h.2.1 (by simp)⟩

/-- When the Play thread has finished, only Close events remain. -/
theorem interleaves_nil_play : ∀ (cs : List CloseAct) (evs : List Ev),
    Interleaves [] cs evs → ∀ a, Ev.p a ∉ evs := by
  intro cs evs
  induction evs generalizing cs with
  | nil => intro _ a; simp
  | cons e rest ih =>
    intro h a
    cases h with
    | cstep h2 =>
      intro hmem
      rcases List.mem_cons.1 hmem with heq | hmem2
      · exact Ev.noConfusion heq
      · exact ih _ h2 a hmem2

/-- A schedule without render events never renders after a teardown. -/
theorem renderAfterTeardown_of_no_renders : ∀ (evs : List Ev) (b : Bool),
    Ev.p .renderFrameAct ∉ evs → renderAfterTeardown evs b = false := by
  intro evs
  induction evs with
  | nil => intro b _; rfl
  | cons e rest ih =>
    intro b h
    rw [List.mem_cons] at h
    push_neg at h
    obtain ⟨h1, h2⟩ := h
    cases e with
    | p a =>
      cases a with
      | acquirePlayMu => exact ih b h2
      | renderFrameAct => exact absurd rfl (fun hc => h1 hc.symm)
      | releasePlayMu => exact ih b h2
    | c a =>
      cases a with
      | stopSignal => exact ih b h2
      | acquirePlayMu => exact ih b h2
      | releasePlayMu => exact ih b h2
      | teardownRenderer => exact ih true h2

/-- While Play holds `playMu` (its critical section, with only renders
and the final release left) and Close has not yet acquired, no valid
schedule renders after the teardown. -/
theorem crit_section_safe : ∀ (evs : List Ev) (m : Nat) (cs : List CloseAct)
    (ps : List PlayAct),
    ps = List.replicate m .renderFrameAct ++ [.releasePlayMu] →
    (cs = closeProgram ∨
      cs = [.acquirePlayMu, .releasePlayMu, .teardownRenderer]) →
    Interleaves ps cs evs →
    (runLock (some true) evs).isSome = true →
    renderAfterTeardown evs false = false := by
  intro evs
  induction evs with
  | nil =>
    intro m cs ps hps hcs h hv
    cases h
    exact absurd hps.symm (by simp)
  | cons e rest ih =>
    intro m cs ps hps hcs h hv
    cases h with
    | pstep h2 =>
      rename_i a ps0
      cases m with
      | zero =>
        simp only [List.replicate, List.nil_append, List.cons.injEq] at hps
        obtain ⟨ha, hps0⟩ := hps
        subst ha
        subst hps0
        show renderAfterTeardown rest false = false
        exact renderAfterTeardown_of_no_renders rest false
          (interleaves_nil_play cs rest h2 _)
      | succ m2 =>
        simp only [List.replicate_succ, List.cons_append, List.cons.injEq] at hps
        obtain ⟨ha, hps0⟩ := hps
        subst ha
        show renderAfterTeardown rest false = false
        exact ih m2 cs ps0 hps0 hcs h2 hv
    | cstep h2 =>
      rename_i a cs0
      rcases hcs with hcs | hcs
      · simp only [closeProgram, List.cons.injEq] at hcs
        obtain ⟨ha, hcs0⟩ := hcs
        subst ha
        show renderAfterTeardown rest false = false
        exact ih m cs0 ps hps (Or.inr hcs0) h2 hv
      · simp only [List.cons.injEq] at hcs
        obtain ⟨ha, _⟩ := hcs
        subst ha
        exact absurd hv (by simp [runLock, lockStep])

/-- From session start, in every valid interleaving in which the Play
thread takes `playMu` first, no frame is rendered after the renderer
teardown. -/
theorem play_inflight_safe : ∀ (evs : List Ev) (k : Nat) (cs : List CloseAct)
    (ps : List PlayAct),
    ps = playProgram k →
    (cs = closeProgram ∨
      cs = [.acquirePlayMu, .releasePlayMu, .teardownRenderer]) →
    Interleaves ps cs evs →
    (runLock none evs).isSome = true →
    playAcquiresFirst evs = true →
    renderAfterTeardown evs false = false := by
  intro evs
  induction evs with
  | nil =>
    intro k cs ps hps hcs h hv hp
    cases h
    exact absurd hps.symm (by simp [playProgram])
  | cons e rest ih =>
    intro k cs ps hps hcs h hv hp
    cases h with
    | pstep h2 =>
      rename_i a ps0
      simp only [playProgram, List.cons.injEq] at hps
      obtain ⟨ha, hps0⟩ := hps
      subst ha
      show renderAfterTeardown rest false = false
      exact crit_section_safe rest k cs ps0 hps0 hcs h2 hv
    | cstep h2 =>
      rename_i a cs0
      rcases hcs with hcs | hcs
      · simp only [closeProgram, List.cons.injEq] at hcs
        obtain ⟨ha, hcs0⟩ := hcs
        subst ha
        show renderAfterTeardown rest false = false
        exact ih k cs0 ps hps (Or.inr hcs0) h2 hv hp
      · simp only [List.cons.injEq] at hcs
        obtain ⟨ha, _⟩ := hcs
        subst ha
        exact absurd hp (by simp [playAcquiresFirst])

/-- C9: `Close()` blocks until an in-flight `Play` has fully exited —
Play holds `playMu` for its whole duration and Close signals stop then
acquires `playMu` before tearing down the renderer — so in every valid
schedule of the two threads in which Play has the mutex first, no
frame is ever rendered after the renderer teardown. -/
theorem Close_waits_for_inflight_Play (k : Nat) (evs : List Ev)
    (hint : Interleaves (playProgram k) closeProgram evs)
    (hvalid : (runLock none evs).isSome = true)
    (hinflight : playAcquiresFirst evs = true) :
    renderAfterTeardown evs false = false :=
  play_inflight_safe evs k closeProgram (playProgram k) rfl (Or.inl rfl)
    hint hvalid hinflight

/-- A concrete complete schedule: Play acquires, renders one frame and
exits; Close then stops, takes and releases the mutex, and tears down. -/
def closeWitnessSchedule : List Ev :=
  [.p .acquirePlayMu, .p .renderFrameAct, .p .releasePlayMu,
   .c .stopSignal, .c .acquirePlayMu, .c .releasePlayMu,
   .c .teardownRenderer]

/-- Witness for C9 on the concrete schedule. -/
theorem Close_waits_for_inflight_Play_witness :
    Interleaves (playProgram 1) closeProgram closeWitnessSchedule ∧
    (runLock none closeWitnessSchedule).isSome = true ∧
    playAcquiresFirst closeWitnessSchedule = true ∧
    renderAfterTeardown closeWitnessSchedule false = false := by
  have hI : Interleaves (playProgram 1) closeProgram closeWitnessSchedule := by
    repeat constructor
  exact ⟨hI, rfl, rfl, Close_waits_for_inflight_Play 1 closeWitnessSchedule hI rfl rfl⟩

end Reels
